import Mathlib

/-!
Verification development for the GEGL graph core.

The file embeds, as executable Lean definitions:

* the layer meta-operation (src/operations/meta/layer.c): its private state,
  the prepare, associate, refresh_cache and dispose callbacks;
* the generated Porter-Duff / blend point composers
  (src/unnamed/part_000 alias svg-12-porter-duff.rb, and
  src/operations/generated/other-blend.rb): the scalar process and the
  SIMD process_gegl4float bodies that the generators emit, with the
  per-pixel arithmetic abstracted as function parameters (the kernels are
  opaque per the spec, and the claims only concern control flow);
* the connection-graph contract and the evaluation visitor, which are not
  part of the source tree given here (only the spec documents them), so
  they are modelled from the spec (sections 4.1 and 4.4).

Theorems about these definitions settle the claims of the specification.
-/

namespace Layer

/-- External configuration of the layer operation: the chant properties
composite_op, opacity, x, y, src of layer.c.  The double-typed properties
are only ever stored and compared by the code under study, never used
arithmetically, so they are embedded as integers. -/
structure Config where
  composite_op : String
  opacity : Int
  x : Int
  y : Int
  src : String
deriving DecidableEq, Repr

/-- The internal nodes of the layer meta-node, plus its three boundary
proxies, as created by associate (layer.c lines 106-119). -/
inductive NodeRef
  | input
  | aux
  | output
  | composite
  | shift
  | opacity
  | load
deriving DecidableEq, Repr

/-- A directed internal connection: source node/pad feeding a
destination node/pad, as made by gegl_node_connect. -/
structure Conn where
  dst : NodeRef
  dstPad : String
  src : NodeRef
  srcPad : String
deriving DecidableEq, Repr

/-- The private state struct Priv of layer.c, after associate has run.
Node pointers are represented by what the claims need: the source
currently wired into the opacity node's input pad (load after associate,
possibly rewired to the aux proxy by prepare), the buffer property set on
the internal load node, the property values pushed into the internal
nodes, and the cached asset fields cached_path / cached_buffer.  A buffer
is represented by the path it was loaded from; load_count is the
instrumentation counter of loader invocations (one per gegl_node_apply in
refresh_cache). -/
structure Priv where
  composite_operation : String
  opacity_input : NodeRef
  load_buffer : Option String
  opacity_value : Int
  shift_x : Int
  shift_y : Int
  cached_path : Option String
  cached_buffer : Option String
  load_count : Nat
deriving DecidableEq, Repr

/-- refresh_cache (layer.c lines 169-205).  The C guard is
  !priv->cached_buffer || ((priv->cached_path && self->src) &&
    strcmp (self->src, priv->cached_path))
with self->src always a non-NULL pointer.  On reload the old buffer (if
any) is unreffed, the old path freed, the asset loaded from src and the
new path recorded.  Returns (new state, reloaded?, old buffer released?). -/
def refresh_cache (src : String) (p : Priv) : Priv × Bool × Bool :=
  if p.cached_buffer = none ∨ (p.cached_path ≠ none ∧ p.cached_path ≠ some src) then
    ({ p with cached_buffer := some src
              cached_path := some src
              load_count := p.load_count + 1 },
     true, p.cached_buffer.isSome)
  else
    (p, false, false)

/-- prepare (layer.c lines 57-91): pushes composite_op into the internal
composite node, refreshes the cache and feeds the cached buffer to the
internal load node when src is non-empty (C tests self->src[0]),
otherwise rewires the opacity node's input to the aux proxy; finally
pushes opacity and x/y into the opacity and shift nodes. -/
def prepare (c : Config) (p : Priv) : Priv :=
  let p1 := { p with composite_operation := c.composite_op }
  let p2 :=
    if c.src ≠ "" then
      let r := refresh_cache c.src p1
      { r.1 with load_buffer := r.1.cached_buffer }
    else
      { p1 with opacity_input := NodeRef.aux }
  { p2 with opacity_value := c.opacity, shift_x := c.x, shift_y := c.y }

/-- The internal connections made by associate (layer.c lines 121-125),
in order: opacity.input from load.output, shift.input from
opacity.output, composite.aux from shift.output, composite.input from
the input proxy, output proxy from composite.output. -/
def associate_connections : List Conn :=
  [ ⟨NodeRef.opacity, "input", NodeRef.load, "output"⟩,
    ⟨NodeRef.shift, "input", NodeRef.opacity, "output"⟩,
    ⟨NodeRef.composite, "aux", NodeRef.shift, "output"⟩,
    ⟨NodeRef.composite, "input", NodeRef.input, "output"⟩,
    ⟨NodeRef.output, "input", NodeRef.composite, "output"⟩ ]

/-- Whether some connection of associate touches the given node. -/
def touches (b : NodeRef) (l : List Conn) : Bool :=
  l.any (fun c => c.src = b || c.dst = b)

/-- associate (layer.c lines 93-126): asserts priv == NULL, then
allocates the zeroed Priv, builds the internal nodes and wires them.
The composite node is created with the current composite_op property.
The error value models a g_assert failure aborting the program. -/
def associate (composite_op : String) (priv : Option Priv) : Except String Priv :=
  match priv with
  | some _ => Except.error "g_assert failed: priv == NULL"
  | none =>
      Except.ok
        { composite_operation := composite_op
          opacity_input := NodeRef.load
          load_buffer := none
          opacity_value := 0
          shift_x := 0
          shift_y := 0
          cached_path := none
          cached_buffer := none
          load_count := 0 }

/-- dispose (layer.c lines 128-146): unrefs the cached buffer and frees
the cached path when present, NULLing both fields.  Returns the new
state together with the number of buffer unrefs and of path frees
performed. -/
def dispose (p : Priv) : Priv × Nat × Nat :=
  let r1 :=
    match p.cached_buffer with
    | some _ => ({ p with cached_buffer := none }, 1)
    | none => (p, 0)
  let r2 :=
    match r1.1.cached_path with
    | some _ => ({ r1.1 with cached_path := none }, 1)
    | none => (r1.1, 0)
  (r2.1, r1.2, r2.2)

end Layer

namespace Composer

/-- One RaGaBaA float pixel: the generated composers walk the float
buffers with a fixed stride of 4 (three colour components then alpha),
so a buffer is embedded as a list of 4-component pixels.  The component
type is a parameter: the per-pixel arithmetic is opaque to the claims. -/
structure Pix (α : Type) where
  c0 : α
  c1 : α
  c2 : α
  a : α
deriving DecidableEq, Repr

/-- Body of the scalar loop of the generated process: for one pixel,
out[j] = cF cA cB aA aB for the three colour components j (reading
cB = in[j], cA = aux[j]) and out[3] = aF aA aB, where aF and aD are the
generator's a_formula and c_formula. -/
def processPixel (aF : α → α → α) (cF : α → α → α → α → α)
    (auxp inp : Pix α) : Pix α :=
  { c0 := cF auxp.c0 inp.c0 auxp.a inp.a
    c1 := cF auxp.c1 inp.c1 auxp.a inp.a
    c2 := cF auxp.c2 inp.c2 auxp.a inp.a
    a := aF auxp.a inp.a }

/-- The scalar for-loop (for i = 0; i < n_pixels; i++) of the generated
process: writes n pixels into the front of the out buffer, advancing in,
aux and out by one pixel per iteration.  Running past the end of a
buffer is undefined behaviour in C, embedded as the none result. -/
def scalarLoop (aF : α → α → α) (cF : α → α → α → α → α) :
    Nat → List (Pix α) → List (Pix α) → List (Pix α) → Option (List (Pix α))
  | 0, _, _, outs => some outs
  | n + 1, ia :: ins, aa :: auxs, _ :: outs =>
      (fun rest => processPixel aF cF aa ia :: rest) <$> scalarLoop aF cF n ins auxs outs
  | _ + 1, _, _, _ => none

/-- The scalar process emitted by both svg-12-porter-duff.rb
(src/unnamed/part_000 lines 92-106 and 160-184) and other-blend.rb
(lines 63-77 and 131-155): if aux is NULL it returns TRUE at once,
before touching in_buf or out_buf; otherwise it runs the per-pixel loop.
A NULL in_buf is dereferenced only when the loop body actually runs
(undefined behaviour, none), matching the C which only tests aux. -/
def process (aF : α → α → α) (cF : α → α → α → α → α)
    (in_buf aux_buf : Option (List (Pix α))) (out_buf : List (Pix α))
    (n_pixels : Nat) : Option (Bool × List (Pix α)) :=
  match aux_buf with
  | none => some (true, out_buf)
  | some auxs =>
      match in_buf with
      | none => if n_pixels = 0 then some (true, out_buf) else none
      | some ins =>
          (fun outs => (true, outs)) <$> scalarLoop aF cF n_pixels ins auxs out_buf

/-- The SIMD while-loop of process_gegl4float: writes k pixels
*D = f *A *B, advancing A (aux), B (in) and D (out) each iteration;
overrunning a buffer is undefined behaviour (none). -/
def simdLoop (f : Pix α → Pix α → Pix α) :
    Nat → List (Pix α) → List (Pix α) → List (Pix α) → Option (List (Pix α))
  | 0, _, _, outs => some outs
  | k + 1, aa :: as_, bb :: bs, _ :: outs =>
      (fun rest => f aa bb :: rest) <$> simdLoop f k as_ bs outs
  | _ + 1, _, _, _ => none

/-- process_gegl4float as emitted by both generators
(src/unnamed/part_000 lines 186-212, other-blend.rb lines 157-183):
A = aux_buf, B = in_buf, D = out_buf; if B is NULL or n_pixels is 0 it
returns TRUE immediately; otherwise the pre-decrementing loop
while (--n_pixels) runs n_pixels - 1 iterations of *D = f *A *B.  A NULL
aux is not checked and is dereferenced only when the loop body actually
runs, that is when n_pixels - 1 is nonzero (none = undefined
behaviour). -/
def process_gegl4float (f : Pix α → Pix α → Pix α)
    (in_buf aux_buf : Option (List (Pix α))) (out_buf : List (Pix α))
    (n_pixels : Nat) : Option (Bool × List (Pix α)) :=
  match in_buf with
  | none => some (true, out_buf)
  | some bs =>
      if n_pixels = 0 then some (true, out_buf)
      else
        match aux_buf with
        | none => if n_pixels - 1 = 0 then some (true, out_buf) else none
        | some as_ =>
            (fun outs => (true, outs)) <$> simdLoop f (n_pixels - 1) as_ bs out_buf

end Composer

namespace GraphCore

/-- Modelled from the spec: the Connection Graph of sections 3 and 4.1 is
not in the source tree given here (only the spec documents it).  A pad is
a named socket on a node (spec section 3, Pad). -/
structure Pad where
  node : Nat
  name : String
deriving DecidableEq, Repr

/-- Modelled from the spec: the mutable registry of directed pad-to-pad
connections, with the per-output-pad consumer_count bookkeeping of
section 4.1.  An edge is (source output pad, destination input pad). -/
structure Graph where
  edges : List (Pad × Pad)
  counts : List (Pad × Nat)
deriving DecidableEq, Repr

/-- The node-level successor relation induced by a list of node pairs. -/
def EdgeRel (es : List (Nat × Nat)) (a b : Nat) : Prop := (a, b) ∈ es

/-- The node-to-node edges of a graph. -/
def nodeEdges (g : Graph) : List (Nat × Nat) :=
  g.edges.map (fun e => (e.1.node, e.2.node))

/-- One saturation step of reachability: add the successors of every
node already in the set. -/
def edgeStep (es : List (Nat × Nat)) (s : Finset Nat) : Finset Nat :=
  s ∪ ((es.filter (fun e => decide (e.1 ∈ s))).map Prod.snd).toFinset

/-- The set of nodes reachable from a (a itself included), computed by
saturating edgeStep; es.length + 1 rounds always suffice. -/
def reachSet (es : List (Nat × Nat)) (a : Nat) : Finset Nat :=
  (edgeStep es)^[es.length + 1] {a}

/-- A cycle in the node-level relation. -/
def HasCycle (es : List (Nat × Nat)) : Prop :=
  ∃ n, Relation.TransGen (EdgeRel es) n n

/-- Acyclicity of the node-level relation. -/
def Acyclic (es : List (Nat × Nat)) : Prop := ¬ HasCycle es

/-- Errors of connect, spec section 4.1 and 7. -/
inductive ConnectError
  | cycleError
  | alreadyConnected
deriving DecidableEq, Repr

/-- Whether an input pad already has a source. -/
def hasSource (g : Graph) (dst : Pad) : Bool :=
  g.edges.any (fun e => e.2 = dst)

/-- First-match association lookup on the consumer-count list. -/
def lookupCount : List (Pad × Nat) → Pad → Nat
  | [], _ => 0
  | q :: rest, p => if q.1 = p then q.2 else lookupCount rest p

/-- consumer_count of an output pad. -/
def consumerCount (g : Graph) (p : Pad) : Nat := lookupCount g.counts p

/-- Increment the consumer count of an output pad. -/
def bump : List (Pad × Nat) → Pad → List (Pad × Nat)
  | [], p => [(p, 1)]
  | q :: rest, p => if q.1 = p then (q.1, q.2 + 1) :: rest else q :: bump rest p

/-- Whether adding an edge from src to dst would close a cycle: dst's
node already reaches src's node (or they coincide). -/
def wouldCreateCycle (g : Graph) (src dst : Pad) : Bool :=
  decide (src.node ∈ reachSet (nodeEdges g) dst.node)

/-- Modelled from the spec (section 4.1): connect(output_pad, input_pad)
fails with CycleError if the new edge would create a cycle, or
AlreadyConnectedError if input_pad already has a source; on success it
records the edge and increments output_pad.consumer_count.  An error
leaves the graph value untouched. -/
def connect (g : Graph) (src dst : Pad) : Except ConnectError Graph :=
  if wouldCreateCycle g src dst then Except.error ConnectError.cycleError
  else if hasSource g dst then Except.error ConnectError.alreadyConnected
  else Except.ok { edges := (src, dst) :: g.edges, counts := bump g.counts src }

/-- A connect attempt applied to a graph: the edge is added on success,
the graph kept on error. -/
def applyConnect (g : Graph) (r : Pad × Pad) : Graph :=
  match connect g r.1 r.2 with
  | Except.ok g' => g'
  | Except.error _ => g

/-- The empty connection graph. -/
def emptyGraph : Graph := ⟨[], []⟩

end GraphCore

namespace Visitor

/-- Modelled from the spec (section 4.4): the Evaluation Visitor is not
in the source tree given here.  A node has an identity and one input
slot per input pad, each either unconnected or naming the source output
pad it is connected to.  Nodes have a single output pad, identified with
the node id. -/
structure VNode where
  id : Nat
  inputs : List (Option Nat)
deriving DecidableEq, Repr

/-- Modelled from the spec: a graph to evaluate; compute is the opaque
per-node kernel (spec section 6), mapping the node id and its resolved
input buffers to the output buffer (buffers are opaque values, embedded
as naturals). -/
structure VGraph where
  nodes : List VNode
  compute : Nat → List (Option Nat) → Nat

/-- A recorded consumption of one input pad: consuming node m, input pad
index i on m, and the source output pad src it drew from. -/
structure CEdge where
  m : Nat
  i : Nat
  src : Nat
deriving DecidableEq, Repr

/-- Modelled from the spec (section 4.4): the per-pass state of the
Evaluation Visitor.  resolved caches the buffer of each resolved output
pad; visiting is the optional in-progress marking for runtime cycle
detection; consumer holds the live consumer_count of every output pad;
computes counts kernel invocations (the mock call counter of section 8);
released records buffer releases; consumedE records the input-pad
consumptions performed. -/
structure EvalState where
  resolved : List (Nat × Nat)
  visiting : List Nat
  consumer : List (Nat × Nat)
  computes : List Nat
  released : List Nat
  consumedE : List CEdge
deriving DecidableEq, Repr

/-- First-match association lookup. -/
def alookup : List (Nat × Nat) → Nat → Option Nat
  | [], _ => none
  | q :: rest, k => if q.1 = k then some q.2 else alookup rest k

/-- Read a consumer count (0 when absent). -/
def cget (l : List (Nat × Nat)) (k : Nat) : Nat := (alookup l k).getD 0

/-- Decrement the first entry for the given key. -/
def cdec : List (Nat × Nat) → Nat → List (Nat × Nat)
  | [], _ => []
  | q :: rest, k => if q.1 = k then (q.1, q.2 - 1) :: rest else q :: cdec rest k

/-- Find a node by id. -/
def findNode (g : VGraph) (n : Nat) : Option VNode :=
  g.nodes.find? (fun m => m.id = n)

/-- The input pads of one node that are connected to output pad n, as
(node id, input index) pairs. -/
def nodeInEdges (nd : VNode) (n : Nat) : List (Nat × Nat) :=
  (List.range nd.inputs.length).filterMap (fun i =>
    if nd.inputs.get? i = some (some n) then some (nd.id, i) else none)

/-- All input pads connected to output pad n. -/
def inEdges (g : VGraph) (n : Nat) : List (Nat × Nat) :=
  (g.nodes.map (fun nd => nodeInEdges nd n)).flatten

/-- The number of consumers connected to output pad n. -/
def indeg (g : VGraph) (n : Nat) : Nat := (inEdges g n).length

/-- The node ids of the graph. -/
def padList (g : VGraph) : List Nat := g.nodes.map VNode.id

/-- Every connected input names an existing node. -/
def WFGraph (g : VGraph) : Bool :=
  g.nodes.all (fun m => m.inputs.all (fun o =>
    match o with
    | none => true
    | some s => decide (s ∈ padList g)))

/-- The state at the start of an evaluation pass: nothing resolved or
computed, every output pad's consumer_count set to the number of input
pads connected to it. -/
def initState (g : VGraph) : EvalState :=
  { resolved := []
    visiting := []
    consumer := (padList g).map (fun n => (n, indeg g n))
    computes := []
    released := []
    consumedE := [] }

/-- Consume the source output pad src through input pad (m, i):
decrement src's consumer_count and, exactly when it thereby reaches
zero, release src's buffer (spec section 4.4 step 2). -/
def consumeEdge (m i src : Nat) (st : EvalState) : EvalState :=
  let consumer' := cdec st.consumer src
  { st with
      consumer := consumer'
      consumedE := ⟨m, i, src⟩ :: st.consumedE
      released := if cget consumer' src = 0 then src :: st.released else st.released }

/-- Resolve the inputs of node m in order, with rsv resolving one source
output pad (the resolver is a parameter so that the recursion is
structural on the input list); i is the index of the first input in the
list.  Each connected input resolves its source, then consumes it. -/
def resolveList (rsv : Nat → EvalState → Option (Nat × EvalState)) (m : Nat) :
    List (Option Nat) → Nat → EvalState → Option (List (Option Nat) × EvalState)
  | [], _, st => some ([], st)
  | none :: rest, i, st =>
      match resolveList rsv m rest (i + 1) st with
      | none => none
      | some (bufs, st') => some (none :: bufs, st')
  | some src :: rest, i, st =>
      match rsv src st with
      | none => none
      | some (b, st1) =>
          let st2 := consumeEdge m i src st1
          match resolveList rsv m rest (i + 1) st2 with
          | none => none
          | some (bufs, st') => some (some b :: bufs, st')

/-- Modelled from the spec (section 4.4): resolve(output_pad).  If the
pad is already resolved this pass, return its cached buffer unchanged
(memoization).  Otherwise mark it visiting (runtime cycle detection),
resolve and consume all inputs of the owning node, invoke the node's
compute once, record the buffer, mark the pad resolved and unmark
visiting.  fuel bounds the recursion depth; none is failure (exhausted
fuel, a cycle, or an unknown node). -/
def resolve (g : VGraph) : Nat → Nat → EvalState → Option (Nat × EvalState)
  | 0, _, _ => none
  | fuel + 1, p, st =>
      match alookup st.resolved p with
      | some b => some (b, st)
      | none =>
          if p ∈ st.visiting then none
          else
            match findNode g p with
            | none => none
            | some nd =>
                match resolveList (resolve g fuel) p nd.inputs 0
                    { st with visiting := p :: st.visiting } with
                | none => none
                | some (bufs, st1) =>
                    let b := g.compute p bufs
                    some (b, { st1 with
                                resolved := (p, b) :: st1.resolved
                                visiting := st1.visiting.erase p
                                computes := p :: st1.computes })

/-- Number of compute invocations for pad n this pass. -/
def computeCount (st : EvalState) (n : Nat) : Nat := st.computes.count n

/-- Number of buffer releases for pad n this pass. -/
def releaseCount (st : EvalState) (n : Nat) : Nat := st.released.count n

/-- Number of consumptions that have drawn from output pad n. -/
def consumedInto (st : EvalState) (n : Nat) : Nat :=
  (st.consumedE.filter (fun e => e.src = n)).length

/-- The (consuming node, input index) pairs consumed so far. -/
def consumedPairs (st : EvalState) : List (Nat × Nat) :=
  st.consumedE.map (fun e => (e.m, e.i))

/-- The state invariant of an evaluation pass: computes mirrors the
resolved pads (one kernel call per resolved pad, so at-most-once
compute); no pad is both visiting and resolved; every consumption is of
a real input edge, no input pad consumes twice, and a consumption's
owner is resolved or in progress; each consumer count equals the
connected consumers not yet consumed; and a buffer has been released
exactly once precisely when the pad had consumers and all of them have
consumed it. -/
structure Inv (g : VGraph) (st : EvalState) : Prop where
  computes_resolved : st.computes = st.resolved.map Prod.fst
  resolved_nodup : (st.resolved.map Prod.fst).Nodup
  visiting_unresolved : ∀ q ∈ st.visiting, alookup st.resolved q = none
  consumed_edges : ∀ e ∈ st.consumedE, (e.m, e.i) ∈ inEdges g e.src
  consumed_nodup : (consumedPairs st).Nodup
  consumed_owner : ∀ e ∈ st.consumedE,
      alookup st.resolved e.m ≠ none ∨ e.m ∈ st.visiting
  consumer_eq : ∀ n, cget st.consumer n = indeg g n - consumedInto st n
  released_eq : ∀ n, releaseCount st n =
      if indeg g n ≠ 0 ∧ consumedInto st n = indeg g n then 1 else 0

/-- A concrete graph for witnesses: source 0 feeds three consumers 1, 2,
3, which feed sink 4. -/
def sampleGraph : VGraph :=
  { nodes := [⟨0, []⟩, ⟨1, [some 0]⟩, ⟨2, [some 0]⟩, ⟨3, [some 0]⟩,
      ⟨4, [some 1, some 2, some 3]⟩]
    compute := fun n _ => n + 100 }

/-- The state a full pass on sampleGraph ends in. -/
def sampleFinal : EvalState :=
  { resolved := [(4, 104), (3, 103), (2, 102), (1, 101), (0, 100)]
    visiting := []
    consumer := [(0, 0), (1, 0), (2, 0), (3, 0), (4, 0)]
    computes := [4, 3, 2, 1, 0]
    released := [3, 0, 2, 1]
    consumedE := [⟨4, 2, 3⟩, ⟨3, 0, 0⟩, ⟨4, 1, 2⟩, ⟨2, 0, 0⟩, ⟨4, 0, 1⟩, ⟨1, 0, 0⟩] }

/-- What one successful resolve call does to the state, seen from
outside: visiting is restored, resolution only grows (and only by pads
that were neither resolved nor in progress), and every new consumption
belongs to a pad resolved during the call. -/
structure Frame (st st' : EvalState) : Prop where
  vis : st'.visiting = st.visiting
  res : ∃ pre, st'.resolved = pre ++ st.resolved ∧
      ∀ q ∈ pre.map Prod.fst, alookup st.resolved q = none ∧ q ∉ st.visiting
  con : ∃ ce, st'.consumedE = ce ++ st.consumedE ∧
      ∀ e ∈ ce, alookup st.resolved e.m = none ∧
        alookup st'.resolved e.m ≠ none ∧ e.m ∉ st.visiting

end Visitor

namespace Layer

/-- Helper: a second prepare with the same configuration recomputes the
identical state (in particular the second refresh_cache does not
reload). -/
lemma prepare_idem_aux (c : Config) (p : Priv) :
    prepare c (prepare c p) = prepare c p := by
  obtain ⟨co, oi, lb, ov, sx, sy, cp, cb, lc⟩ := p
  by_cases hs : c.src = ""
  · simp [prepare, hs]
  · by_cases hC : cb = none ∨ (cp ≠ none ∧ cp ≠ some c.src)
    · simp [prepare, refresh_cache, hs, hC]
    · simp [prepare, refresh_cache, hs, hC]

/-- C1: for the layer meta-node, a prepare with a non-empty source path
reloads the cached asset exactly when no cached buffer exists or the
current path differs from the last-used path (releasing the old buffer
and recording the new path), and otherwise reuses the cached state
unchanged; two consecutive prepare calls with the same path load at most
once, and a prepare with a distinct non-empty path triggers exactly one
further reload. -/
theorem layer_cache_reload_policy (c c' : Config) (p : Priv)
    (hwf : p.cached_buffer.isSome → p.cached_path.isSome)
    (hs : c.src ≠ "") (hs' : c'.src ≠ "") (hne : c'.src ≠ c.src) :
    ((refresh_cache c.src p).2.1 = true ↔
        (p.cached_buffer = none ∨ p.cached_path ≠ some c.src)) ∧
    ((refresh_cache c.src p).2.1 = false → (refresh_cache c.src p).1 = p) ∧
    ((refresh_cache c.src p).2.1 = true →
        (refresh_cache c.src p).1.cached_path = some c.src ∧
        (refresh_cache c.src p).1.cached_buffer = some c.src ∧
        (refresh_cache c.src p).2.2 = p.cached_buffer.isSome) ∧
    (prepare c (prepare c p)).load_count = (prepare c p).load_count ∧
    (prepare c p).load_count ≤ p.load_count + 1 ∧
    (prepare c' (prepare c p)).load_count = (prepare c p).load_count + 1 := by
  obtain ⟨co, oi, lb, ov, sx, sy, cp, cb, lc⟩ := p
  simp only [Option.isSome_iff_ne_none] at hwf
  by_cases hC : cb = none ∨ (cp ≠ none ∧ cp ≠ some c.src)
  · refine ⟨?_, ?_, ?_, ?_, ?_, ?_⟩
    · simp only [refresh_cache, if_pos hC]
      constructor
      · intro _
        rcases hC with h1 | h2
        · exact Or.inl h1
        · exact Or.inr h2.2
      · intro _; trivial
    · simp [refresh_cache, hC]
    · simp [refresh_cache, hC]
    · have := prepare_idem_aux c ⟨co, oi, lb, ov, sx, sy, cp, cb, lc⟩
      rw [this]
    · simp [prepare, refresh_cache, hs, hC]
    · simp [prepare, refresh_cache, hs, hs', hC, hne, Ne.symm hne]
  · have hcb : cb ≠ none := by
      intro h; exact hC (Or.inl h)
    have hcp : cp = some c.src := by
      rcases cp with _ | q
      · exact absurd rfl (hwf hcb)
      · by_contra hne2
        exact hC (Or.inr ⟨by simp, hne2⟩)
    refine ⟨?_, ?_, ?_, ?_, ?_, ?_⟩
    · simp only [refresh_cache, if_neg hC]
      simp [hcb, hcp]
    · simp [refresh_cache, hC]
    · simp [refresh_cache, hC]
    · have := prepare_idem_aux c ⟨co, oi, lb, ov, sx, sy, cp, cb, lc⟩
      rw [this]
    · simp [prepare, refresh_cache, hs, hC]
    · simp [prepare, refresh_cache, hs, hs', hC, hcb, hcp, Ne.symm hne]

/-- C1 witness: starting from a fresh cache, a prepare on path a
followed by a prepare on path b reloads exactly once more. -/
theorem layer_cache_reload_policy_witness :
    (prepare ⟨"over", 1, 0, 0, "b.png"⟩
        (prepare ⟨"over", 1, 0, 0, "a.png"⟩
          ⟨"over", NodeRef.load, none, 0, 0, 0, none, none, 0⟩)).load_count =
      (prepare ⟨"over", 1, 0, 0, "a.png"⟩
        ⟨"over", NodeRef.load, none, 0, 0, 0, none, none, 0⟩).load_count + 1 :=
  (layer_cache_reload_policy ⟨"over", 1, 0, 0, "a.png"⟩ ⟨"over", 1, 0, 0, "b.png"⟩
    ⟨"over", NodeRef.load, none, 0, 0, 0, none, none, 0⟩
    (by decide) (by decide) (by decide) (by decide)).2.2.2.2.2

/-- C2 counterexample: associate does not wire all three boundary pads;
its connection list never touches the aux proxy node (the aux boundary
is only wired by prepare, and only when src is empty). -/
theorem layer_associate_aux_not_wired :
    ¬ ∀ b ∈ [NodeRef.input, NodeRef.aux, NodeRef.output],
        touches b associate_connections = true := by decide

/-- C2 amended: associate builds the internal chain load to opacity to
shift to composite (shift feeding the composite node's aux pad) and
wires the external input and output boundary pads to internal nodes; the
external aux boundary pad is not wired during associate, but prepare
wires it into the opacity node's input when the source path is empty. -/
theorem layer_associate_wiring (c : Config) (p : Priv) (h : c.src = "") :
    Conn.mk NodeRef.opacity "input" NodeRef.load "output" ∈ associate_connections ∧
    Conn.mk NodeRef.shift "input" NodeRef.opacity "output" ∈ associate_connections ∧
    Conn.mk NodeRef.composite "aux" NodeRef.shift "output" ∈ associate_connections ∧
    touches NodeRef.input associate_connections = true ∧
    touches NodeRef.output associate_connections = true ∧
    touches NodeRef.aux associate_connections = false ∧
    (prepare c p).opacity_input = NodeRef.aux := by
  refine ⟨by decide, by decide, by decide, by decide, by decide, by decide, ?_⟩
  simp [prepare, h]

/-- C2 amended witness: an empty-src prepare wires the aux proxy into
the opacity node. -/
theorem layer_associate_wiring_witness :
    (prepare ⟨"over", 1, 0, 0, ""⟩
        ⟨"over", NodeRef.load, none, 0, 0, 0, none, none, 0⟩).opacity_input =
      NodeRef.aux :=
  (layer_associate_wiring ⟨"over", 1, 0, 0, ""⟩
    ⟨"over", NodeRef.load, none, 0, 0, 0, none, none, 0⟩ rfl).2.2.2.2.2.2

/-- C3: repeated prepare with an unchanged external configuration
changes nothing: the state after two prepare calls equals the state
after one (internal wiring, node parameters, cached path and buffer, and
the loader call counter alike). -/
theorem layer_prepare_idempotent (c : Config) (p : Priv) :
    prepare c (prepare c p) = prepare c p :=
  prepare_idem_aux c p

/-- C4: associate asserts that the private state is still NULL; on a
fresh instance it succeeds and allocates the private state, so a second
invocation on the same instance fails the assertion. -/
theorem layer_associate_at_most_once (op op' : String) (p : Priv) :
    (∃ q, associate op none = Except.ok q) ∧
    associate op' (some p) = Except.error "g_assert failed: priv == NULL" :=
  ⟨⟨_, rfl⟩, rfl⟩

/-- C10: dispose releases the cached buffer and frees the cached path at
most once each, NULLs both fields, and a second dispose performs no
release and leaves the state unchanged. -/
theorem layer_dispose_idempotent (p : Priv) :
    (dispose p).2.1 ≤ 1 ∧ (dispose p).2.2 ≤ 1 ∧
    (dispose p).1.cached_buffer = none ∧ (dispose p).1.cached_path = none ∧
    dispose (dispose p).1 = ((dispose p).1, 0, 0) := by
  obtain ⟨co, oi, lb, ov, sx, sy, cp, cb, lc⟩ := p
  cases cb <;> cases cp <;> simp [dispose]

end Layer

namespace Composer

/-- Helper: the SIMD loop writes exactly its k requested pixels when the
buffers are long enough, leaving the rest of the out buffer as it was. -/
lemma simdLoop_eq {α : Type} (f : Pix α → Pix α → Pix α) :
    ∀ (k : Nat) (A B out : List (Pix α)),
      k ≤ A.length → k ≤ B.length → k ≤ out.length →
      simdLoop f k A B out =
        some (List.zipWith f (A.take k) (B.take k) ++ out.drop k) := by
  intro k
  induction k with
  | zero => intro A B out _ _ _; simp [simdLoop]
  | succ k ih =>
      intro A B out hA hB hO
      match A, B, out with
      | a :: as_, b :: bs, o :: outs =>
          simp only [simdLoop, List.take_succ_cons, List.drop_succ_cons,
            List.zipWith_cons_cons]
          rw [ih as_ bs outs (by simpa using hA) (by simpa using hB) (by simpa using hO)]
          rfl

/-- C8: the scalar process of every generated Porter-Duff and blend
point composer returns TRUE immediately and writes nothing to the output
buffer when the aux buffer is NULL, for every pixel count and input
buffer. -/
theorem composer_scalar_null_aux (α : Type) (aF : α → α → α)
    (cF : α → α → α → α → α) (in_buf : Option (List (Pix α)))
    (out_buf : List (Pix α)) (n : Nat) :
    process aF cF in_buf none out_buf n = some (true, out_buf) := rfl

/-- C9: in every generated SIMD variant process_gegl4float, with both
buffers non-NULL and n_pixels at least 1, the per-pixel formula is
applied to exactly the first n_pixels - 1 consecutive pixels (the rest
of the out buffer is untouched); with a NULL in_buf or n_pixels = 0 it
returns TRUE without writing any pixel. -/
theorem composer_simd_processes_pred (α : Type) (f : Pix α → Pix α → Pix α)
    (A B out : List (Pix α)) (n : Nat) (hn : 1 ≤ n)
    (hA : n - 1 ≤ A.length) (hB : n - 1 ≤ B.length) (hO : n - 1 ≤ out.length) :
    (process_gegl4float f (some B) (some A) out n =
        some (true,
          List.zipWith f (A.take (n - 1)) (B.take (n - 1)) ++ out.drop (n - 1)) ∧
     (List.zipWith f (A.take (n - 1)) (B.take (n - 1))).length = n - 1) ∧
    process_gegl4float f none (some A) out n = some (true, out) ∧
    process_gegl4float f (some B) (some A) out 0 = some (true, out) := by
  have hn0 : n ≠ 0 := by omega
  refine ⟨⟨?_, ?_⟩, rfl, rfl⟩
  · simp only [process_gegl4float, if_neg hn0]
    rw [simdLoop_eq f (n - 1) A B out hA hB hO]
    rfl
  · simp only [List.length_zipWith, List.length_take]
    omega

/-- C9 witness: a concrete 3-pixel run writes exactly the first two
pixels. -/
theorem composer_simd_witness :
    process_gegl4float (fun a _ => a)
        (some [⟨4, 4, 4, 4⟩, ⟨5, 5, 5, 5⟩, ⟨6, 6, 6, 6⟩])
        (some [⟨1, 1, 1, 1⟩, ⟨2, 2, 2, 2⟩, ⟨3, 3, 3, 3⟩])
        ([⟨0, 0, 0, 0⟩, ⟨0, 0, 0, 0⟩, ⟨0, 0, 0, 0⟩] : List (Pix Nat)) 3 =
      some (true, [⟨1, 1, 1, 1⟩, ⟨2, 2, 2, 2⟩, ⟨0, 0, 0, 0⟩]) :=
  (composer_simd_processes_pred Nat (fun a _ => a)
    [⟨1, 1, 1, 1⟩, ⟨2, 2, 2, 2⟩, ⟨3, 3, 3, 3⟩]
    [⟨4, 4, 4, 4⟩, ⟨5, 5, 5, 5⟩, ⟨6, 6, 6, 6⟩]
    [⟨0, 0, 0, 0⟩, ⟨0, 0, 0, 0⟩, ⟨0, 0, 0, 0⟩] 3
    (by decide) (by decide) (by decide) (by decide)).1.1

end Composer

namespace GraphCore

lemma subset_edgeStep (es : List (Nat × Nat)) (s : Finset Nat) : s ⊆ edgeStep es s :=
  Finset.subset_union_left

lemma mem_edgeStep_of_edge {es : List (Nat × Nat)} {s : Finset Nat} {u v : Nat}
    (he : (u, v) ∈ es) (hu : u ∈ s) : v ∈ edgeStep es s := by
  apply Finset.mem_union_right
  simp only [List.mem_toFinset, List.mem_map]
  exact ⟨(u, v), List.mem_filter.2 ⟨he, by simpa using hu⟩, rfl⟩

lemma iterate_le_subset (es : List (Nat × Nat)) (s : Finset Nat) {k m : Nat} (h : k ≤ m) :
    (edgeStep es)^[k] s ⊆ (edgeStep es)^[m] s := by
  induction m with
  | zero =>
      have : k = 0 := Nat.le_zero.1 h
      subst this; exact subset_refl _
  | succ m ih =>
      rcases Nat.lt_or_ge k (m + 1) with h1 | h2
      · intro x hx
        rw [Function.iterate_succ_apply']
        exact subset_edgeStep es _ (ih (Nat.lt_succ_iff.1 h1) hx)
      · have : k = m + 1 := le_antisymm h h2
        subst this; exact subset_refl _

lemma reflTransGen_of_mem_iterate (es : List (Nat × Nat)) (a : Nat) :
    ∀ (k : Nat) (b : Nat), b ∈ (edgeStep es)^[k] {a} →
      Relation.ReflTransGen (EdgeRel es) a b := by
  intro k
  induction k with
  | zero =>
      intro b hb
      have : b = a := by simpa using hb
      subst this
      exact Relation.ReflTransGen.refl
  | succ k ih =>
      intro b hb
      rw [Function.iterate_succ_apply'] at hb
      rcases Finset.mem_union.1 hb with h1 | h2
      · exact ih b h1
      · simp only [List.mem_toFinset, List.mem_map] at h2
        obtain ⟨e, hef, rfl⟩ := h2
        have hm := List.mem_filter.1 hef
        have h1 : e.1 ∈ (edgeStep es)^[k] {a} := by simpa using hm.2
        exact Relation.ReflTransGen.tail (ih e.1 h1) (show EdgeRel es e.1 e.2 from hm.1)

lemma iterate_fixed {es : List (Nat × Nat)} {s : Finset Nat}
    (h : edgeStep es s = s) : ∀ k, (edgeStep es)^[k] s = s := by
  intro k
  induction k with
  | zero => rfl
  | succ k ih => rw [Function.iterate_succ_apply', ih, h]

lemma iterate_subset_univ (es : List (Nat × Nat)) (a : Nat) :
    ∀ k, (edgeStep es)^[k] {a} ⊆ insert a (es.map Prod.snd).toFinset := by
  intro k
  induction k with
  | zero => simp
  | succ k ih =>
      rw [Function.iterate_succ_apply']
      intro x hx
      rcases Finset.mem_union.1 hx with h1 | h2
      · exact ih h1
      · simp only [List.mem_toFinset, List.mem_map] at h2
        obtain ⟨e, hef, rfl⟩ := h2
        have hm := List.mem_filter.1 hef
        refine Finset.mem_insert_of_mem ?_
        simp only [List.mem_toFinset, List.mem_map]
        exact ⟨e, hm.1, rfl⟩

lemma card_growth (es : List (Nat × Nat)) (a : Nat) :
    ∀ k, (∀ j < k, edgeStep es ((edgeStep es)^[j] {a}) ≠ (edgeStep es)^[j] {a}) →
      k + 1 ≤ ((edgeStep es)^[k] {a}).card := by
  intro k
  induction k with
  | zero => intro _; simp
  | succ k ih =>
      intro h
      have h1 : k + 1 ≤ ((edgeStep es)^[k] {a}).card :=
        ih (fun j hj => h j (Nat.lt_succ_of_lt hj))
      have hne := h k (Nat.lt_succ_self k)
      have hss : (edgeStep es)^[k] {a} ⊂ edgeStep es ((edgeStep es)^[k] {a}) :=
        Finset.ssubset_iff_subset_ne.2 ⟨subset_edgeStep es _, Ne.symm hne⟩
      have h2 := Finset.card_lt_card hss
      rw [Function.iterate_succ_apply']
      omega

lemma edgeStep_reachSet (es : List (Nat × Nat)) (a : Nat) :
    edgeStep es (reachSet es a) = reachSet es a := by
  by_cases hfix : ∃ j, j ≤ es.length ∧
      edgeStep es ((edgeStep es)^[j] {a}) = (edgeStep es)^[j] {a}
  · obtain ⟨j, hj, hfx⟩ := hfix
    have h1 : (edgeStep es)^[es.length + 1] {a} = (edgeStep es)^[j] {a} := by
      have h2 : es.length + 1 = (es.length + 1 - j) + j := by omega
      rw [h2, Function.iterate_add_apply]
      exact iterate_fixed hfx _
    unfold reachSet
    rw [h1, hfx]
  · exfalso
    push_neg at hfix
    have hgrow := card_growth es a (es.length + 1) (fun j hj => hfix j (by omega))
    have hsub := iterate_subset_univ es a (es.length + 1)
    have hcard := Finset.card_le_card hsub
    have hU : (insert a (es.map Prod.snd).toFinset).card ≤ es.length + 1 := by
      have h3 := Finset.card_insert_le a (es.map Prod.snd).toFinset
      have h4 := List.toFinset_card_le (es.map Prod.snd)
      have h5 : (es.map Prod.snd).length = es.length := List.length_map _ _
      omega
    omega

lemma mem_reachSet_of_reflTransGen (es : List (Nat × Nat)) (a b : Nat)
    (h : Relation.ReflTransGen (EdgeRel es) a b) : b ∈ reachSet es a := by
  induction h with
  | refl =>
      exact iterate_le_subset es {a} (Nat.zero_le _) (Finset.mem_singleton_self a)
  | tail h1 h2 ih =>
      have h3 := mem_edgeStep_of_edge h2 ih
      rwa [edgeStep_reachSet] at h3

lemma mem_reachSet_iff (es : List (Nat × Nat)) (a b : Nat) :
    b ∈ reachSet es a ↔ Relation.ReflTransGen (EdgeRel es) a b :=
  ⟨reflTransGen_of_mem_iterate es a _ b, mem_reachSet_of_reflTransGen es a b⟩

lemma transGen_cons {u v : Nat} {es : List (Nat × Nat)} {a b : Nat}
    (h : Relation.TransGen (EdgeRel ((u, v) :: es)) a b) :
    Relation.TransGen (EdgeRel es) a b ∨
      (Relation.ReflTransGen (EdgeRel es) a u ∧
       Relation.ReflTransGen (EdgeRel es) v b) := by
  induction h with
  | single h1 =>
      rcases List.mem_cons.1 h1 with h2 | h3
      · rw [Prod.mk.injEq] at h2
        obtain ⟨rfl, rfl⟩ := h2
        exact Or.inr ⟨Relation.ReflTransGen.refl, Relation.ReflTransGen.refl⟩
      · exact Or.inl (Relation.TransGen.single h3)
  | tail h1 h2 ih =>
      rcases List.mem_cons.1 h2 with h3 | h4
      · rw [Prod.mk.injEq] at h3
        obtain ⟨rfl, rfl⟩ := h3
        rcases ih with h5 | ⟨h6, h7⟩
        · exact Or.inr ⟨h5.to_reflTransGen, Relation.ReflTransGen.refl⟩
        · exact Or.inr ⟨h6, Relation.ReflTransGen.refl⟩
      · rcases ih with h5 | ⟨h6, h7⟩
        · exact Or.inl (h5.tail h4)
        · exact Or.inr ⟨h6, h7.tail h4⟩

lemma hasCycle_cons_iff {u v : Nat} {es : List (Nat × Nat)} (hA : Acyclic es) :
    HasCycle ((u, v) :: es) ↔ Relation.ReflTransGen (EdgeRel es) v u := by
  constructor
  · rintro ⟨n, hn⟩
    rcases transGen_cons hn with h1 | ⟨h2, h3⟩
    · exact absurd ⟨n, h1⟩ hA
    · exact h3.trans h2
  · intro h
    refine ⟨u, ?_⟩
    have h1 : Relation.ReflTransGen (EdgeRel ((u, v) :: es)) v u :=
      Relation.ReflTransGen.mono (fun x y hxy => List.mem_cons_of_mem _ hxy) h
    exact Relation.TransGen.head'
      (show EdgeRel ((u, v) :: es) u v from List.mem_cons_self _ _) h1

lemma hasCycle_iff_check (es : List (Nat × Nat)) :
    HasCycle es ↔ ∃ e ∈ es, e.1 ∈ reachSet es e.2 := by
  constructor
  · rintro ⟨n, hn⟩
    rcases Relation.TransGen.head'_iff.1 hn with ⟨c, h1, h2⟩
    exact ⟨(n, c), h1, (mem_reachSet_iff es c n).2 h2⟩
  · rintro ⟨e, he, hr⟩
    exact ⟨e.1,
      Relation.TransGen.head' (show EdgeRel es e.1 e.2 from he)
        ((mem_reachSet_iff es e.2 e.1).1 hr)⟩

lemma acyclic_iff_all (es : List (Nat × Nat)) :
    Acyclic es ↔ (es.all fun e => decide (e.1 ∉ reachSet es e.2)) = true := by
  unfold Acyclic
  rw [hasCycle_iff_check]
  simp [List.all_eq_true]

lemma acyclic_nil : Acyclic ([] : List (Nat × Nat)) := by
  rintro ⟨n, hn⟩
  rcases Relation.TransGen.head'_iff.1 hn with ⟨c, h1, _⟩
  exact absurd h1 (List.not_mem_nil _)

lemma lookupCount_bump (cs : List (Pad × Nat)) (p : Pad) :
    lookupCount (bump cs p) p = lookupCount cs p + 1 := by
  induction cs with
  | nil => simp [bump, lookupCount]
  | cons q rest ih =>
      by_cases h : q.1 = p
      · simp [bump, lookupCount, h]
      · simp [bump, lookupCount, h, ih]

/-- C7: connect fails with CycleError exactly when the new edge would
create a cycle, fails with AlreadyConnectedError exactly when (no cycle
would arise and) the input pad already has a source — the functional
model returns the untouched graph alongside either error — and on
success records the edge, increments the output pad's consumer_count and
preserves acyclicity; moreover every sequence of connect attempts
starting from the empty graph leaves the connection relation acyclic. -/
theorem graph_connect_contract :
    (∀ (g : Graph) (src dst : Pad), Acyclic (nodeEdges g) →
      ((connect g src dst = Except.error ConnectError.cycleError ↔
          HasCycle ((src.node, dst.node) :: nodeEdges g)) ∧
       (connect g src dst = Except.error ConnectError.alreadyConnected ↔
          (¬ HasCycle ((src.node, dst.node) :: nodeEdges g) ∧ hasSource g dst = true)) ∧
       (∀ g', connect g src dst = Except.ok g' →
          g'.edges = (src, dst) :: g.edges ∧
          consumerCount g' src = consumerCount g src + 1 ∧
          Acyclic (nodeEdges g')))) ∧
    (∀ reqs : List (Pad × Pad),
      Acyclic (nodeEdges (reqs.foldl applyConnect emptyGraph))) := by
  have partA : ∀ (g : Graph) (src dst : Pad), Acyclic (nodeEdges g) →
      ((connect g src dst = Except.error ConnectError.cycleError ↔
          HasCycle ((src.node, dst.node) :: nodeEdges g)) ∧
       (connect g src dst = Except.error ConnectError.alreadyConnected ↔
          (¬ HasCycle ((src.node, dst.node) :: nodeEdges g) ∧ hasSource g dst = true)) ∧
       (∀ g', connect g src dst = Except.ok g' →
          g'.edges = (src, dst) :: g.edges ∧
          consumerCount g' src = consumerCount g src + 1 ∧
          Acyclic (nodeEdges g'))) := by
    intro g src dst hA
    have hbridge : wouldCreateCycle g src dst = true ↔
        HasCycle ((src.node, dst.node) :: nodeEdges g) := by
      unfold wouldCreateCycle
      rw [decide_eq_true_iff, mem_reachSet_iff]
      exact (hasCycle_cons_iff hA).symm
    by_cases hW : wouldCreateCycle g src dst = true
    · have hHC := hbridge.1 hW
      refine ⟨by simp [connect, hW, hHC], ?_, ?_⟩
      · simp only [connect, hW, if_true]
        constructor
        · intro h; cases h
        · rintro ⟨h1, _⟩; exact absurd hHC h1
      · intro g' h
        simp [connect, hW] at h
    · have hW' : wouldCreateCycle g src dst = false := by
        simpa using hW
      have hNC : ¬ HasCycle ((src.node, dst.node) :: nodeEdges g) :=
        fun hc => hW (hbridge.2 hc)
      by_cases hS : hasSource g dst = true
      · refine ⟨?_, ?_, ?_⟩
        · simp only [connect, hW', Bool.false_eq_true, if_false, hS, if_true]
          constructor
          · intro h; cases h
          · intro h; exact absurd h hNC
        · simp [connect, hW', hS, hNC]
        · intro g' h
          simp [connect, hW', hS] at h
      · have hS' : hasSource g dst = false := by simpa using hS
        refine ⟨?_, ?_, ?_⟩
        · simp only [connect, hW', Bool.false_eq_true, if_false, hS',
            if_false]
          constructor
          · intro h; cases h
          · intro h; exact absurd h hNC
        · simp [connect, hW', hS']
        · intro g' h
          simp only [connect, hW', Bool.false_eq_true, if_false, hS',
            if_false, Except.ok.injEq] at h
          subst h
          refine ⟨rfl, lookupCount_bump g.counts src, ?_⟩
          have hedges : nodeEdges
              { edges := (src, dst) :: g.edges, counts := bump g.counts src } =
              (src.node, dst.node) :: nodeEdges g := by
            simp [nodeEdges]
          rw [hedges]
          exact hNC
  refine ⟨partA, ?_⟩
  have hnil : Acyclic (nodeEdges emptyGraph) := acyclic_nil
  have step : ∀ (reqs : List (Pad × Pad)) (g : Graph), Acyclic (nodeEdges g) →
      Acyclic (nodeEdges (reqs.foldl applyConnect g)) := by
    intro reqs
    induction reqs with
    | nil => intro g hg; exact hg
    | cons r rest ih =>
        intro g hg
        simp only [List.foldl_cons]
        apply ih
        unfold applyConnect
        cases hc : connect g r.1 r.2 with
        | ok g' => exact ((partA g r.1 r.2 hg).2.2 g' hc).2.2
        | error e => exact hg
  intro reqs
  exact step reqs emptyGraph hnil

/-- C7 witness: connecting a fresh output pad to a fresh input pad on
the empty graph succeeds and bumps the consumer count from 0 to 1. -/
theorem graph_connect_contract_witness :
    consumerCount
        ⟨[(⟨0, "output"⟩, ⟨1, "input"⟩)], [(⟨0, "output"⟩, 1)]⟩ ⟨0, "output"⟩ =
      consumerCount emptyGraph ⟨0, "output"⟩ + 1 :=
  ((graph_connect_contract.1 emptyGraph ⟨0, "output"⟩ ⟨1, "input"⟩
      ((acyclic_iff_all (nodeEdges emptyGraph)).2 (by decide))).2.2
    ⟨[(⟨0, "output"⟩, ⟨1, "input"⟩)], [(⟨0, "output"⟩, 1)]⟩ rfl).2.1

end GraphCore

namespace Visitor

lemma alookup_eq_none_iff (l : List (Nat × Nat)) (k : Nat) :
    alookup l k = none ↔ k ∉ l.map Prod.fst := by
  induction l with
  | nil => simp [alookup]
  | cons q rest ih =>
      by_cases h : q.1 = k
      · simp [alookup, h]
      · simp [alookup, h, ih, Ne.symm h]

lemma alookup_append_none_iff (l1 l2 : List (Nat × Nat)) (k : Nat) :
    alookup (l1 ++ l2) k = none ↔ alookup l1 k = none ∧ alookup l2 k = none := by
  induction l1 with
  | nil => simp [alookup]
  | cons q rest ih =>
      by_cases h : q.1 = k
      · simp [alookup, h]
      · simp [alookup, h, ih]

lemma alookup_append_of_none {l1 : List (Nat × Nat)} {k : Nat}
    (h : alookup l1 k = none) (l2 : List (Nat × Nat)) :
    alookup (l1 ++ l2) k = alookup l2 k := by
  induction l1 with
  | nil => simp [alookup]
  | cons q rest ih =>
      obtain ⟨a, v⟩ := q
      by_cases hq : a = k
      · simp only [alookup, if_pos hq] at h
        cases h
      · simp only [alookup, if_neg hq] at h
        simp only [List.cons_append, alookup, if_neg hq]
        exact ih h

lemma cget_cdec_self (l : List (Nat × Nat)) (k : Nat) :
    cget (cdec l k) k = cget l k - 1 := by
  induction l with
  | nil => simp [cget, cdec, alookup]
  | cons q rest ih =>
      by_cases h : q.1 = k
      · simp [cget, cdec, alookup, h]
      · simpa [cget, cdec, alookup, h] using ih

lemma cget_cdec_ne (l : List (Nat × Nat)) {k k' : Nat} (h : k' ≠ k) :
    cget (cdec l k) k' = cget l k' := by
  induction l with
  | nil => simp [cget, cdec]
  | cons q rest ih =>
      obtain ⟨a, v⟩ := q
      by_cases hq : a = k
      · subst hq
        simp [cget, cdec, alookup, Ne.symm h]
      · by_cases hk : a = k'
        · subst hk
          simp [cget, cdec, alookup, hq]
        · simpa [cget, cdec, alookup, hq, hk] using ih

lemma cget_map_pairs (f : Nat → Nat) (l : List Nat) (k : Nat) :
    cget (l.map (fun n => (n, f n))) k = if k ∈ l then f k else 0 := by
  induction l with
  | nil => simp [cget, alookup]
  | cons a rest ih =>
      by_cases h : a = k
      · subst h; simp [cget, alookup]
      · simp only [List.map_cons, cget, alookup, if_neg h, List.mem_cons]
        rw [show (alookup (rest.map fun n => (n, f n)) k).getD 0 =
          cget (rest.map fun n => (n, f n)) k from rfl, ih]
        simp [Ne.symm h]

lemma mem_inEdges_iff (g : VGraph) (n m i : Nat) :
    (m, i) ∈ inEdges g n ↔
      ∃ nd ∈ g.nodes, nd.id = m ∧ nd.inputs.get? i = some (some n) := by
  unfold inEdges nodeInEdges
  rw [List.mem_flatten]
  constructor
  · rintro ⟨l, hl, hml⟩
    rw [List.mem_map] at hl
    obtain ⟨nd, hnd, rfl⟩ := hl
    rw [List.mem_filterMap] at hml
    obtain ⟨j, _, hj⟩ := hml
    by_cases hc : nd.inputs.get? j = some (some n)
    · rw [if_pos hc] at hj
      obtain ⟨rfl, rfl⟩ : nd.id = m ∧ j = i := by
        have := Option.some.inj hj
        exact ⟨congrArg Prod.fst this, congrArg Prod.snd this⟩
      exact ⟨nd, hnd, rfl, hc⟩
    · rw [if_neg hc] at hj
      cases hj
  · rintro ⟨nd, hnd, rfl, hget⟩
    refine ⟨nodeInEdges nd n, ?_, ?_⟩
    · rw [List.mem_map]
      exact ⟨nd, hnd, rfl⟩
    · unfold nodeInEdges
      rw [List.mem_filterMap]
      refine ⟨i, ?_, by rw [if_pos hget]⟩
      rw [List.mem_range]
      exact (List.get?_eq_some.1 hget).1

lemma wf_spec {g : VGraph} (hwf : WFGraph g = true) :
    ∀ nd ∈ g.nodes, ∀ s : Nat, some s ∈ nd.inputs → s ∈ padList g := by
  intro nd hnd s hs
  rw [WFGraph, List.all_eq_true] at hwf
  have h1 := hwf nd hnd
  rw [List.all_eq_true] at h1
  have h2 := h1 (some s) hs
  simpa using h2

lemma indeg_eq_zero_of_not_mem {g : VGraph} (hwf : WFGraph g = true)
    {n : Nat} (hn : n ∉ padList g) : indeg g n = 0 := by
  unfold indeg
  cases hE : inEdges g n with
  | nil => rfl
  | cons x xs =>
      exfalso
      have hx : (x.1, x.2) ∈ inEdges g n := by rw [hE]; exact List.mem_cons_self _ _
      rw [mem_inEdges_iff] at hx
      obtain ⟨nd, hnd, _, hget⟩ := hx
      exact hn (wf_spec hwf nd hnd n (List.get?_mem hget))

lemma nodup_subset_length_le {d L : List (Nat × Nat)} (hd : d.Nodup)
    (hsub : ∀ x ∈ d, x ∈ L) : d.length ≤ L.length := by
  calc d.length = d.toFinset.card := (List.toFinset_card_of_nodup hd).symm
    _ ≤ L.toFinset.card := by
        apply Finset.card_le_card
        intro x hx
        rw [List.mem_toFinset] at hx ⊢
        exact hsub x hx
    _ ≤ L.length := List.toFinset_card_le L

lemma consumedInto_consumeEdge (m i src : Nat) (st : EvalState) (n : Nat) :
    consumedInto (consumeEdge m i src st) n =
      if src = n then consumedInto st n + 1 else consumedInto st n := by
  by_cases h : src = n <;>
    simp [consumedInto, consumeEdge, List.filter_cons, h]

lemma consumeEdge_inv {g : VGraph} {st : EvalState} (hinv : Inv g st)
    {m i src : Nat}
    (hedge : (m, i) ∈ inEdges g src)
    (hnew : (m, i) ∉ consumedPairs st)
    (hown : alookup st.resolved m ≠ none ∨ m ∈ st.visiting) :
    Inv g (consumeEdge m i src st) := by
  have hsubl : List.Sublist
      ((st.consumedE.filter (fun e => e.src = src)).map (fun e => (e.m, e.i)))
      (consumedPairs st) :=
    List.Sublist.map _ (List.filter_sublist _)
  have hlt : consumedInto st src < indeg g src := by
    have hd : ((m, i) :: (st.consumedE.filter (fun e => e.src = src)).map
        (fun e => (e.m, e.i))).Nodup := by
      rw [List.nodup_cons]
      exact ⟨fun hmem => hnew (hsubl.subset hmem),
        List.Nodup.sublist hsubl hinv.consumed_nodup⟩
    have hsub : ∀ x ∈ (m, i) :: (st.consumedE.filter (fun e => e.src = src)).map
        (fun e => (e.m, e.i)), x ∈ inEdges g src := by
      intro x hx
      rcases List.mem_cons.1 hx with h1 | h2
      · subst h1; exact hedge
      · rw [List.mem_map] at h2
        obtain ⟨e, he, rfl⟩ := h2
        have h3 := List.mem_filter.1 he
        have h4 : e.src = src := by simpa using h3.2
        rw [← h4]
        exact hinv.consumed_edges e h3.1
    have := nodup_subset_length_le hd hsub
    simp only [List.length_cons, List.length_map] at this
    unfold consumedInto indeg
    omega
  have hcons : cget (cdec st.consumer src) src =
      indeg g src - (consumedInto st src + 1) := by
    rw [cget_cdec_self, hinv.consumer_eq src, Nat.sub_sub]
  refine ⟨hinv.computes_resolved, hinv.resolved_nodup, hinv.visiting_unresolved,
    ?_, ?_, ?_, ?_, ?_⟩
  · intro e he
    rcases List.mem_cons.1 he with h1 | h2
    · subst h1; exact hedge
    · exact hinv.consumed_edges e h2
  · have h1 : consumedPairs (consumeEdge m i src st) = (m, i) :: consumedPairs st := by
      simp [consumedPairs, consumeEdge]
    rw [h1, List.nodup_cons]
    exact ⟨hnew, hinv.consumed_nodup⟩
  · intro e he
    rcases List.mem_cons.1 he with h1 | h2
    · subst h1; exact hown
    · exact hinv.consumed_owner e h2
  · intro n
    rw [consumedInto_consumeEdge]
    by_cases h : src = n
    · subst h
      simp only [eq_self_iff_true, if_true]
      show cget (cdec st.consumer src) src = _
      rw [hcons]
    · simp only [if_neg h]
      show cget (cdec st.consumer src) n = _
      rw [cget_cdec_ne _ (fun hh => h hh.symm), hinv.consumer_eq n]
  · intro n
    have hrel : (consumeEdge m i src st).released =
        if cget (cdec st.consumer src) src = 0 then src :: st.released
        else st.released := rfl
    rw [consumedInto_consumeEdge]
    by_cases h : src = n
    · subst h
      simp only [eq_self_iff_true, if_true]
      by_cases hz : cget (cdec st.consumer src) src = 0
      · have heq : indeg g src = consumedInto st src + 1 := by
          rw [hcons] at hz
          omega
        have h1 : releaseCount (consumeEdge m i src st) src =
            releaseCount st src + 1 := by
          unfold releaseCount
          rw [hrel, if_pos hz, List.count_cons_self]
        have h2 : releaseCount st src = 0 := by
          rw [hinv.released_eq src, if_neg]
          rintro ⟨_, h3⟩
          omega
        rw [h1, h2, if_pos ⟨by omega, heq.symm⟩]
      · have hlt2 : consumedInto st src + 1 < indeg g src := by
          rw [hcons] at hz
          omega
        have h1 : releaseCount (consumeEdge m i src st) src = releaseCount st src := by
          unfold releaseCount
          rw [hrel, if_neg hz]
        rw [h1, hinv.released_eq src, if_neg, if_neg]
        · rintro ⟨_, h3⟩; omega
        · rintro ⟨_, h3⟩; omega
    · simp only [if_neg h]
      have h1 : releaseCount (consumeEdge m i src st) n = releaseCount st n := by
        unfold releaseCount
        rw [hrel]
        by_cases hz : cget (cdec st.consumer src) src = 0
        · rw [if_pos hz]
          exact List.count_cons_of_ne (fun hh => h hh.symm) st.released
        · rw [if_neg hz]
      rw [h1, hinv.released_eq n]

lemma consumeEdge_resolved (m i src : Nat) (st : EvalState) :
    (consumeEdge m i src st).resolved = st.resolved := rfl

lemma consumeEdge_visiting (m i src : Nat) (st : EvalState) :
    (consumeEdge m i src st).visiting = st.visiting := rfl

lemma consumeEdge_consumedE (m i src : Nat) (st : EvalState) :
    (consumeEdge m i src st).consumedE = CEdge.mk m i src :: st.consumedE := rfl

lemma consumedInto_le_indeg {g : VGraph} {st : EvalState} (hinv : Inv g st)
    (n : Nat) : consumedInto st n ≤ indeg g n := by
  unfold consumedInto indeg
  have hlen : (st.consumedE.filter (fun e => e.src = n)).length =
      ((st.consumedE.filter (fun e => e.src = n)).map (fun e => (e.m, e.i))).length :=
    (List.length_map _ _).symm
  rw [hlen]
  apply nodup_subset_length_le
  · exact List.Nodup.sublist
      (List.Sublist.map _ (List.filter_sublist st.consumedE)) hinv.consumed_nodup
  · intro x hx
    rw [List.mem_map] at hx
    obtain ⟨e, he, rfl⟩ := hx
    have h1 := List.mem_filter.1 he
    have h2 : e.src = n := by simpa using h1.2
    rw [← h2]
    exact hinv.consumed_edges e h1.1

lemma resolveList_frame (g : VGraph)
    (rsv : Nat → EvalState → Option (Nat × EvalState))
    (hrsv : ∀ q st b st', rsv q st = some (b, st') →
        Frame st st' ∧ alookup st'.resolved q = some b ∧ (Inv g st → Inv g st'))
    (nd : VNode) (m : Nat) (hnd : nd ∈ g.nodes) (hid : nd.id = m) :
    ∀ (l : List (Option Nat)) (i : Nat) (st : EvalState) (bufs : List (Option Nat))
      (st' : EvalState),
      resolveList rsv m l i st = some (bufs, st') →
      (∀ j ov, l.get? j = some ov → nd.inputs.get? (i + j) = some ov) →
      m ∈ st.visiting →
      (st'.visiting = st.visiting ∧
       (∃ pre, st'.resolved = pre ++ st.resolved ∧
           ∀ q ∈ pre.map Prod.fst, alookup st.resolved q = none ∧ q ∉ st.visiting) ∧
       (∃ ce, st'.consumedE = ce ++ st.consumedE ∧
           ∀ e ∈ ce, (alookup st.resolved e.m = none ∧
               alookup st'.resolved e.m ≠ none ∧ e.m ∉ st.visiting) ∨
             (e.m = m ∧ i ≤ e.i)) ∧
       ((Inv g st ∧ ∀ e ∈ st.consumedE, e.m = m → e.i < i) → Inv g st')) := by
  intro l
  induction l with
  | nil =>
      intro i st bufs st' hl hsuf hm
      simp only [resolveList, Option.some.injEq, Prod.mk.injEq] at hl
      obtain ⟨_, rfl⟩ := hl
      refine ⟨rfl, ⟨[], by simp, by simp⟩, ⟨[], by simp, by simp⟩, fun h => h.1⟩
  | cons o rest ih =>
      intro i st bufs st' hl hsuf hm
      cases o with
      | none =>
          cases hrec : resolveList rsv m rest (i + 1) st with
          | none =>
              simp only [resolveList, hrec] at hl
              exact Option.noConfusion hl
          | some val =>
              obtain ⟨bufs1, st1⟩ := val
              simp only [resolveList, hrec, Option.some.injEq, Prod.mk.injEq] at hl
              obtain ⟨_, rfl⟩ := hl
              have hsuf2 : ∀ j ov, rest.get? j = some ov →
                  nd.inputs.get? (i + 1 + j) = some ov := by
                intro j ov hj
                have h2 := hsuf (j + 1) ov (by simpa using hj)
                rwa [show i + (j + 1) = i + 1 + j by omega] at h2
              obtain ⟨A, B, ⟨ce, hce, hcec⟩, D⟩ := ih (i + 1) st bufs1 st1 hrec hsuf2 hm
              refine ⟨A, B, ⟨ce, hce, ?_⟩, ?_⟩
              · intro e he
                rcases hcec e he with h1 | ⟨h2, h3⟩
                · exact Or.inl h1
                · exact Or.inr ⟨h2, by omega⟩
              · rintro ⟨hinv, hless⟩
                exact D ⟨hinv, fun e he hem => Nat.lt_succ_of_lt (hless e he hem)⟩
      | some src =>
          cases h1 : rsv src st with
          | none =>
              simp only [resolveList, h1] at hl
              exact Option.noConfusion hl
          | some val1 =>
              obtain ⟨b, st1⟩ := val1
              cases h2 : resolveList rsv m rest (i + 1) (consumeEdge m i src st1) with
              | none =>
                  simp only [resolveList, h1, h2] at hl
                  exact Option.noConfusion hl
              | some val2 =>
                  obtain ⟨bufs1, st3⟩ := val2
                  simp only [resolveList, h1, h2, Option.some.injEq,
                    Prod.mk.injEq] at hl
                  obtain ⟨_, rfl⟩ := hl
                  obtain ⟨F1, hres1, hinv1⟩ := hrsv src st b st1 h1
                  obtain ⟨pre1, hpre1, hpre1c⟩ := F1.res
                  obtain ⟨ce1, hce1, hce1c⟩ := F1.con
                  have hvis2 : (consumeEdge m i src st1).visiting = st.visiting := by
                    rw [consumeEdge_visiting, F1.vis]
                  have hres2 : (consumeEdge m i src st1).resolved = pre1 ++ st.resolved := by
                    rw [consumeEdge_resolved, hpre1]
                  have hm2 : m ∈ (consumeEdge m i src st1).visiting := by
                    rw [hvis2]; exact hm
                  have hsuf2 : ∀ j ov, rest.get? j = some ov →
                      nd.inputs.get? (i + 1 + j) = some ov := by
                    intro j ov hj
                    have h3 := hsuf (j + 1) ov (by simpa using hj)
                    rwa [show i + (j + 1) = i + 1 + j by omega] at h3
                  obtain ⟨A3, ⟨pre3, hpre3, hpre3c⟩, ⟨ce3, hce3, hce3c⟩, D3⟩ :=
                    ih (i + 1) (consumeEdge m i src st1) bufs1 st3 h2 hsuf2 hm2
                  have hres3 : st3.resolved = (pre3 ++ pre1) ++ st.resolved := by
                    rw [hpre3, hres2, List.append_assoc]
                  refine ⟨?_, ?_, ?_, ?_⟩
                  · rw [A3, hvis2]
                  · refine ⟨pre3 ++ pre1, hres3, ?_⟩
                    intro q hq
                    rw [List.map_append, List.mem_append] at hq
                    rcases hq with hq3 | hq1
                    · have h4 := hpre3c q hq3
                      rw [hres2, alookup_append_none_iff] at h4
                      exact ⟨h4.1.2, by rw [← hvis2]; exact h4.2⟩
                    · exact hpre1c q hq1
                  · refine ⟨ce3 ++ CEdge.mk m i src :: ce1, ?_, ?_⟩
                    · rw [hce3, consumeEdge_consumedE, hce1, List.append_assoc,
                        List.cons_append]
                    · intro e he
                      rw [List.mem_append, List.mem_cons] at he
                      rcases he with he3 | he1
                      · rcases hce3c e he3 with ⟨ha, hb, hc⟩ | ⟨hd, hE⟩
                        · rw [hres2, alookup_append_none_iff] at ha
                          refine Or.inl ⟨ha.2, hb, ?_⟩
                          rw [← hvis2]; exact hc
                        · exact Or.inr ⟨hd, by omega⟩
                      · rcases he1 with he0 | hee
                        · subst he0
                          exact Or.inr ⟨rfl, le_refl i⟩
                        · obtain ⟨ha, hb, hc⟩ := hce1c e hee
                          refine Or.inl ⟨ha, ?_, hc⟩
                          intro hcontra
                          rw [hpre3, consumeEdge_resolved,
                            alookup_append_none_iff] at hcontra
                          exact hb hcontra.2
                  · rintro ⟨hinv, hless⟩
                    have hinvst1 := hinv1 hinv
                    have hless1 : ∀ e ∈ st1.consumedE, e.m = m → e.i < i := by
                      intro e he hem
                      rw [hce1, List.mem_append] at he
                      rcases he with he' | he'
                      · obtain ⟨_, _, hc⟩ := hce1c e he'
                        rw [hem] at hc
                        exact absurd hm hc
                      · exact hless e he' hem
                    have hnew : (m, i) ∉ consumedPairs st1 := by
                      intro hmem
                      rw [consumedPairs, List.mem_map] at hmem
                      obtain ⟨e, he, heq⟩ := hmem
                      have hem : e.m = m := congrArg Prod.fst heq
                      have hei : e.i = i := congrArg Prod.snd heq
                      have := hless1 e he hem
                      omega
                    have hedge : (m, i) ∈ inEdges g src := by
                      rw [mem_inEdges_iff]
                      refine ⟨nd, hnd, hid, ?_⟩
                      have h5 := hsuf 0 (some src) (by simp)
                      rwa [Nat.add_zero] at h5
                    have hown : alookup st1.resolved m ≠ none ∨ m ∈ st1.visiting :=
                      Or.inr (by rw [F1.vis]; exact hm)
                    have hinvst2 := consumeEdge_inv hinvst1 hedge hnew hown
                    have hless2 : ∀ e ∈ (consumeEdge m i src st1).consumedE,
                        e.m = m → e.i < i + 1 := by
                      intro e he hem
                      rw [consumeEdge_consumedE, List.mem_cons] at he
                      rcases he with he0 | he'
                      · subst he0; exact Nat.lt_succ_self i
                      · have := hless1 e he' hem
                        omega
                    exact D3 ⟨hinvst2, hless2⟩

lemma alookup_cons_none_iff (a v k : Nat) (l : List (Nat × Nat)) :
    alookup ((a, v) :: l) k = none ↔ a ≠ k ∧ alookup l k = none := by
  by_cases h : a = k <;> simp [alookup, h]

lemma alookup_cons_ne_none {l : List (Nat × Nat)} {k : Nat} (a v : Nat)
    (h : alookup l k ≠ none) : alookup ((a, v) :: l) k ≠ none := by
  intro hcon
  rw [alookup_cons_none_iff] at hcon
  exact h hcon.2

lemma alookup_cons_self_ne_none (a v : Nat) (l : List (Nat × Nat)) :
    alookup ((a, v) :: l) a ≠ none := by
  simp [alookup]

lemma resolve_frame (g : VGraph) :
    ∀ (fuel p : Nat) (st : EvalState) (b : Nat) (st' : EvalState),
      resolve g fuel p st = some (b, st') →
      Frame st st' ∧ alookup st'.resolved p = some b ∧ (Inv g st → Inv g st') := by
  intro fuel
  induction fuel with
  | zero =>
      intro p st b st' h
      simp only [resolve] at h
      exact Option.noConfusion h
  | succ fuel ih =>
      intro p st b st' h
      cases hres : alookup st.resolved p with
      | some b0 =>
          simp only [resolve, hres, Option.some.injEq, Prod.mk.injEq] at h
          obtain ⟨rfl, rfl⟩ := h
          exact ⟨⟨rfl, ⟨[], by simp, by simp⟩, ⟨[], by simp, by simp⟩⟩, hres,
            fun hh => hh⟩
      | none =>
          by_cases hvis : p ∈ st.visiting
          · simp only [resolve, hres, if_pos hvis] at h
            exact Option.noConfusion h
          · cases hfind : findNode g p with
            | none =>
                simp only [resolve, hres, if_neg hvis, hfind] at h
                exact Option.noConfusion h
            | some nd =>
                cases hlist : resolveList (resolve g fuel) p nd.inputs 0
                    { st with visiting := p :: st.visiting } with
                | none =>
                    simp only [resolve, hres, if_neg hvis, hfind, hlist] at h
                    exact Option.noConfusion h
                | some val =>
                    obtain ⟨bufs, st1⟩ := val
                    simp only [resolve, hres, if_neg hvis, hfind, hlist,
                      Option.some.injEq, Prod.mk.injEq] at h
                    obtain ⟨rfl, rfl⟩ := h
                    have hnd : nd ∈ g.nodes := List.mem_of_find?_eq_some hfind
                    have hid : nd.id = p := by
                      have h1 := List.find?_some hfind
                      simpa using h1
                    have hsuf : ∀ j ov, nd.inputs.get? j = some ov →
                        nd.inputs.get? (0 + j) = some ov := by
                      intro j ov hj
                      rwa [Nat.zero_add]
                    obtain ⟨A, ⟨pre, hpre, hprec⟩, ⟨ce, hce, hcec⟩, D⟩ :=
                      resolveList_frame g (resolve g fuel) ih nd p hnd hid
                        nd.inputs 0 { st with visiting := p :: st.visiting }
                        bufs st1 hlist hsuf (List.mem_cons_self p st.visiting)
                    have hA : st1.visiting = p :: st.visiting := A
                    have herase : st1.visiting.erase p = st.visiting := by
                      rw [hA]
                      exact List.erase_cons_head p st.visiting
                    have halp : alookup st1.resolved p = none := by
                      rw [hpre]
                      refine (alookup_append_none_iff _ _ _).2 ⟨?_, hres⟩
                      rw [alookup_eq_none_iff]
                      intro hmem
                      exact (hprec p hmem).2 (List.mem_cons_self p st.visiting)
                    refine ⟨⟨herase, ?_, ?_⟩, ?_, ?_⟩
                    · refine ⟨(p, g.compute p bufs) :: pre, ?_, ?_⟩
                      · show (p, g.compute p bufs) :: st1.resolved = _
                        rw [hpre, List.cons_append]
                      · intro q hq
                        rcases List.mem_cons.1 hq with h1 | h2
                        · subst h1
                          exact ⟨hres, hvis⟩
                        · obtain ⟨ha, hb⟩ := hprec q h2
                          exact ⟨ha, fun hc => hb (List.mem_cons_of_mem p hc)⟩
                    · refine ⟨ce, hce, ?_⟩
                      intro e he
                      rcases hcec e he with ⟨ha, hb, hc⟩ | ⟨hd, _⟩
                      · exact ⟨ha, alookup_cons_ne_none p (g.compute p bufs) hb,
                          fun hc2 => hc (List.mem_cons_of_mem p hc2)⟩
                      · refine ⟨by rw [hd]; exact hres, ?_, by rw [hd]; exact hvis⟩
                        rw [hd]
                        exact alookup_cons_self_ne_none p (g.compute p bufs) st1.resolved
                    · show alookup ((p, g.compute p bufs) :: st1.resolved) p = _
                      simp [alookup]
                    · intro hinv
                      have hinv_stv : Inv g { st with visiting := p :: st.visiting } := by
                        refine ⟨hinv.computes_resolved, hinv.resolved_nodup, ?_,
                          hinv.consumed_edges, hinv.consumed_nodup, ?_,
                          hinv.consumer_eq, hinv.released_eq⟩
                        · intro q hq
                          rcases List.mem_cons.1 hq with h1 | h2
                          · subst h1; exact hres
                          · exact hinv.visiting_unresolved q h2
                        · intro e he
                          rcases hinv.consumed_owner e he with h1 | h2
                          · exact Or.inl h1
                          · exact Or.inr (List.mem_cons_of_mem p h2)
                      have hless0 : ∀ e ∈ ({ st with
                          visiting := p :: st.visiting } : EvalState).consumedE,
                          e.m = p → e.i < 0 := by
                        intro e he hem
                        exfalso
                        rcases hinv.consumed_owner e he with h1 | h2
                        · rw [hem] at h1
                          exact h1 hres
                        · rw [hem] at h2
                          exact hvis h2
                      have hinv1 : Inv g st1 := D ⟨hinv_stv, hless0⟩
                      refine ⟨?_, ?_, ?_, hinv1.consumed_edges, hinv1.consumed_nodup,
                        ?_, hinv1.consumer_eq, hinv1.released_eq⟩
                      · show p :: st1.computes = _
                        rw [hinv1.computes_resolved]
                        rfl
                      · show ((p, g.compute p bufs) :: st1.resolved).map Prod.fst |>.Nodup
                        rw [List.map_cons, List.nodup_cons]
                        exact ⟨(alookup_eq_none_iff _ _).1 halp, hinv1.resolved_nodup⟩
                      · intro q hq
                        have hq' : q ∈ st.visiting := by
                          rw [← herase]
                          exact hq
                        have hqp : q ≠ p := fun hh => hvis (hh ▸ hq')
                        show alookup ((p, g.compute p bufs) :: st1.resolved) q = none
                        rw [alookup_cons_none_iff]
                        refine ⟨Ne.symm hqp, ?_⟩
                        exact hinv1.visiting_unresolved q
                          (by rw [hA]; exact List.mem_cons_of_mem p hq')
                      · intro e he
                        rcases hinv1.consumed_owner e he with h1 | h2
                        · exact Or.inl (alookup_cons_ne_none p (g.compute p bufs) h1)
                        · rw [hA] at h2
                          rcases List.mem_cons.1 h2 with h3 | h4
                          · refine Or.inl ?_
                            rw [h3]
                            exact alookup_cons_self_ne_none p (g.compute p bufs)
                              st1.resolved
                          · exact Or.inr (show e.m ∈ st1.visiting.erase p by
                              rw [herase]; exact h4)

lemma inv_init (g : VGraph) (hwf : WFGraph g = true) : Inv g (initState g) := by
  refine ⟨rfl, List.nodup_nil, ?_, ?_, List.nodup_nil, ?_, ?_, ?_⟩
  · intro q hq
    exact absurd hq (List.not_mem_nil q)
  · intro e he
    exact absurd he (List.not_mem_nil e)
  · intro e he
    exact absurd he (List.not_mem_nil e)
  · intro n
    have h0 : consumedInto (initState g) n = 0 := rfl
    rw [h0]
    show cget ((padList g).map fun q => (q, indeg g q)) n = indeg g n - 0
    rw [cget_map_pairs]
    by_cases h : n ∈ padList g
    · rw [if_pos h]
      omega
    · rw [if_neg h, indeg_eq_zero_of_not_mem hwf h]
  · intro n
    have h0 : consumedInto (initState g) n = 0 := rfl
    have h1 : releaseCount (initState g) n = 0 := rfl
    rw [h0, h1, if_neg]
    rintro ⟨h2, h3⟩
    exact h2 h3.symm

/-- C5: for every evaluation pass that completes, each output pad's
compute is invoked at most once regardless of how many consumers request
it, and resolving a pad that is already resolved in the pass returns the
memoized cached buffer with the state unchanged instead of recomputing. -/
theorem visitor_at_most_once_compute (g : VGraph) (fuel root b : Nat)
    (st' : EvalState) (hwf : WFGraph g = true)
    (h : resolve g fuel root (initState g) = some (b, st')) :
    (∀ n, computeCount st' n ≤ 1) ∧
    (∀ fuel' q c, alookup st'.resolved q = some c →
        resolve g (fuel' + 1) q st' = some (c, st')) := by
  have hinv := (resolve_frame g fuel root (initState g) b st' h).2.2 (inv_init g hwf)
  refine ⟨?_, ?_⟩
  · intro n
    unfold computeCount
    rw [hinv.computes_resolved]
    exact List.nodup_iff_count_le_one.1 hinv.resolved_nodup n
  · intro fuel' q c hq
    simp only [resolve, hq]

/-- C5 witness: in the completed pass on sampleGraph, the source pad 0,
though requested by three consumers, was computed at most once. -/
theorem visitor_at_most_once_compute_witness :
    computeCount sampleFinal 0 ≤ 1 :=
  (visitor_at_most_once_compute sampleGraph 10 4 104 sampleFinal
    (by decide) (by decide)).1 0

/-- C6: for every evaluation pass that completes and every output pad
with N connected consumers, the pad's buffer is released exactly once
precisely when all N consuming input pads have been resolved (the
consumer count having decreased to zero), and never earlier; a pad with
no consumers is never released. -/
theorem visitor_refcount_release (g : VGraph) (fuel root b : Nat)
    (st' : EvalState) (hwf : WFGraph g = true)
    (h : resolve g fuel root (initState g) = some (b, st')) (n : Nat) :
    releaseCount st' n ≤ 1 ∧
    (releaseCount st' n = 1 ↔ indeg g n ≠ 0 ∧ consumedInto st' n = indeg g n) ∧
    (consumedInto st' n < indeg g n → releaseCount st' n = 0) ∧
    cget st'.consumer n = indeg g n - consumedInto st' n ∧
    (releaseCount st' n = 1 ↔ indeg g n ≠ 0 ∧ cget st'.consumer n = 0) := by
  have hinv := (resolve_frame g fuel root (initState g) b st' h).2.2 (inv_init g hwf)
  have hrel := hinv.released_eq n
  have hcons := hinv.consumer_eq n
  have hle := consumedInto_le_indeg hinv n
  by_cases hc : indeg g n ≠ 0 ∧ consumedInto st' n = indeg g n
  · rw [if_pos hc] at hrel
    obtain ⟨hc1, hc2⟩ := hc
    refine ⟨by omega, ⟨fun _ => ⟨hc1, hc2⟩, fun _ => hrel⟩, ?_, hcons, ?_⟩
    · intro h5
      omega
    · constructor
      · intro _
        refine ⟨hc1, ?_⟩
        rw [hcons]
        omega
      · intro _
        exact hrel
  · rw [if_neg hc] at hrel
    refine ⟨by omega, ⟨fun h5 => absurd h5 (by omega), fun h5 => absurd h5 hc⟩,
      fun _ => hrel, hcons, ?_⟩
    constructor
    · intro h5
      omega
    · rintro ⟨h5, h6⟩
      rw [hcons] at h6
      exact absurd ⟨h5, by omega⟩ hc

/-- C6 witness: in the completed pass on sampleGraph, the source pad 0,
with three consumers, was released at most once. -/
theorem visitor_refcount_release_witness :
    releaseCount sampleFinal 0 ≤ 1 :=
  (visitor_refcount_release sampleGraph 10 4 104 sampleFinal
    (by decide) (by decide) 0).1

end Visitor
